import Mathlib

/-!
# RSA-SHA256 provenance signatures (`src/provenance.cc`)

A shallow embedding of the node binding in `provenance.cc`: the EMSA-PKCS1-v1_5
encoder, `SignRSASHA256`, `VerifyRSASHA256` and `Generate`, followed by theorems
about them.

Conventions of the embedding.

* A buffer (`Buffer`, memory `BIO`, `unsigned char[]`) is a `List Byte`.
* A `BIGNUM` is a natural number.
* An `int` is an integer; where the source subtracts from one, the 32-bit wrap-around
  below `INT_MIN` is explicit (`intSub`). Every call site in the source passes
  `BN_num_bytes(rsa->n)`, which is never negative.
* An array that the source declares without initialising it holds whatever the stack
  held: `SignRSASHA256` and `VerifyRSASHA256` take that content as the argument
  `stack`.
* The OpenSSL routines called by the source are not part of the repository.
  `SHA256`, the PEM reader/writer and the key generator are parameters of the
  functions that use them; the big-number conversions and the raw RSA transforms
  are defined here from their contract, each marked as such. The raw transforms
  return a status and leave the output array untouched when they refuse their input;
  the source drops that status.
-/

set_option maxRecDepth 100000
set_option exponentiation.threshold 70000

namespace Provenance

/-! ## Data model -/

/-- One octet of a buffer. -/
abbrev Byte := Fin 256

/-- Modelled from the spec: the constant `SHA256_DIGEST_LENGTH` of `openssl/sha.h`,
which is not in the repository; a SHA-256 digest has exactly 32 bytes. -/
def SHA256_DIGEST_LENGTH : Nat := 32

/-- The array `unsigned char mDigest[hashLen]` once `SHA256` has filled it. -/
abbrev Digest := { d : List Byte // d.length = SHA256_DIGEST_LENGTH }

/-- A memory `BIO`: the bytes written to it so far. -/
abbrev BIO := List Byte

/-- The call `BIO_new(BIO_s_mem())`: an empty memory BIO. -/
def BIO_new : BIO := []

/-- The call `BIO_write(b, data, len)`: append the first `len` bytes of `data`. -/
def BIO_write (b : BIO) (data : List Byte) (len : Nat) : BIO :=
  b ++ data.take len

/-- The call `BIO_get_mem_data(b, &p)`: the length and the content of the BIO. -/
def BIO_get_mem_data (b : BIO) : Nat × List Byte := (b.length, b)

/-! ## EMSA-PKCS1-v1_5 encoding -/

/-- The array `prefix[]` of `EMSA_PKCS1_v1_5`. -/
def emsaPrefix : List Byte :=
  [0x30, 0x31, 0x30, 0xd, 0x6, 0x9, 0x60, 0x86,
   0x48, 0x1, 0x65, 0x3, 0x4, 0x2, 0x1, 0x5,
   0x0, 0x4, 0x20]

/-- The padding loop `for (int i = 0; i < bound; i++) BIO_write(result, "\xFF", 1)`,
by recursion on the number of iterations still to run. -/
def writePadding : Nat → BIO → BIO
  | 0, result => result
  | t + 1, result => writePadding t (BIO_write result [0xFF] 1)

/-- The least value of the 32-bit `int` of the source. -/
def INT_MIN : Int := -2147483648

/-- The `int` subtraction `a - b` of an `int` `a` and a constant `b ≥ 0`, on 32 bits in
two's complement: a difference below `INT_MIN` wraps around by `2^32`. The difference
cannot exceed `INT_MAX`, since `a` does not. -/
def intSub (a b : Int) : Int :=
  if a - b < INT_MIN then a - b + 4294967296 else a - b

/-- The function `EMSA_PKCS1_v1_5(m, k)`. The message `m` is the byte content that
`DecodeBytes`/`DecodeWrite` extract; `SHA256` is the digest routine. The loop bound
`k - (prefixLen + hashLen) - 3` is computed in `int`: when it is zero or negative the
loop body never runs, and for `k` below `INT_MIN + 54` it wraps around to a large
positive number. -/
def EMSA_PKCS1_v1_5 (SHA256 : List Byte → Digest) (m : List Byte) (k : Int) : BIO :=
  let hashLen : Nat := SHA256_DIGEST_LENGTH
  let prefixLen : Nat := 19
  let result := BIO_new
  let result := BIO_write result [0x00, 0x01] 2
  let result :=
    writePadding (intSub (intSub k ((prefixLen : Int) + (hashLen : Int))) 3).toNat result
  let result := BIO_write result [0x00] 1
  let result := BIO_write result emsaPrefix prefixLen
  let mDigest := SHA256 m
  BIO_write result mDigest.val hashLen

/-! ## Big numbers and the raw RSA transforms -/

/-- Modelled from the spec: `BN_bin2bn(s, len, NULL)` of OpenSSL, which is not in the
repository; it reads a buffer as a big-endian unsigned integer. -/
def BN_bin2bn (s : List Byte) : Nat :=
  s.foldl (fun acc b => acc * 256 + b.val) 0

/-- The number of significant bits of `a`, by halving at most `fuel` times. -/
def countBits : Nat → Nat → Nat
  | 0, _ => 0
  | fuel + 1, a => if a = 0 then 0 else countBits fuel (a / 2) + 1

/-- Modelled from the spec: `BN_num_bits(a)` of OpenSSL, the number of significant
bits of `a` (zero for zero). Halving `a` times always exhausts `a`. -/
def BN_num_bits (a : Nat) : Nat :=
  countBits a a

/-- Modelled from the spec: the macro `BN_num_bytes(a)` of `openssl/bn.h`,
`(BN_num_bits(a)+7)/8`: the byte length of `a`. -/
def BN_num_bytes (a : Nat) : Nat :=
  (BN_num_bits a + 7) / 8

/-- The big-endian encoding of `a` on exactly `len` bytes (the `len` low-order
base-256 digits, most significant first; zero bytes on the left when `a` is short). -/
def bigEndian : Nat → Nat → List Byte
  | 0, _ => []
  | len + 1, a => bigEndian len (a / 256) ++ [⟨a % 256, Nat.mod_lt a (by decide)⟩]

/-- Modelled from the spec: `BN_bn2bin(a, to)` of OpenSSL; it writes the minimal
big-endian encoding of `a`, which has `BN_num_bytes(a)` bytes. -/
def BN_bn2bin (a : Nat) : List Byte :=
  bigEndian (BN_num_bytes a) a

/-- Modelled from the spec: `BN_hex2bn(&a, str)` of OpenSSL; it reads the leading
hexadecimal digits of `str` as a number. -/
def BN_hex2bn (str : List Char) : Nat :=
  let digit (c : Char) : Option Nat :=
    if '0' ≤ c ∧ c ≤ '9' then some (c.toNat - '0'.toNat)
    else if 'a' ≤ c ∧ c ≤ 'f' then some (c.toNat - 'a'.toNat + 10)
    else if 'A' ≤ c ∧ c ≤ 'F' then some (c.toNat - 'A'.toNat + 10)
    else none
  let rec go : List Char → Nat → Nat
    | [], acc => acc
    | c :: cs, acc =>
      match digit c with
      | some v => go cs (acc * 16 + v)
      | none => acc
  go str 0

/-- Square-and-multiply exponentiation modulo `m`, halving the exponent at most `fuel`
times. -/
def modExpAux : Nat → Nat → Nat → Nat → Nat
  | 0, _, _, m => 1 % m
  | fuel + 1, a, p, m =>
    if p = 0 then 1 % m
    else
      let h := modExpAux fuel a (p / 2) m
      if p % 2 = 1 then h * h % m * a % m else h * h % m

/-- Modelled from the spec: `BN_mod_exp(r, a, p, m, ctx)` of OpenSSL, which is not in
the repository; the result is `a^p mod m`. Halving `p` times always exhausts `p`. -/
def BN_mod_exp (a p m : Nat) : Nat :=
  modExpAux p a p m

/-- The fields of an OpenSSL `RSA` object that the source uses: modulus, public
exponent and private exponent. -/
structure RSA where
  n : Nat
  e : Nat
  d : Nat
deriving DecidableEq, Repr

/-- Modelled from the spec: `RSA_size(rsa)` of OpenSSL, the modulus byte length. -/
def RSA_size (rsa : RSA) : Nat :=
  BN_num_bytes rsa.n

/-- Modelled from the spec: `RSA_private_encrypt(flen, from, to, rsa, RSA_NO_PADDING)`
of OpenSSL, which is not in the repository. The result is the status the call returns
and the content of `to` after the call. The first `flen` bytes of `from` are read as a
big-endian integer `c`. The library refuses its input when `flen` is not
`RSA_size(rsa)` or when `c` is not below the modulus: it then returns -1 and does not
write to `to`. Otherwise it writes `c^d mod n`, big-endian on exactly `RSA_size(rsa)`
bytes, and returns `RSA_size(rsa)`. -/
def RSA_private_encrypt (flen : Nat) (frm out : List Byte) (rsa : RSA) : Int × List Byte :=
  if flen ≠ RSA_size rsa then (-1, out)
  else if rsa.n ≤ BN_bin2bn (frm.take flen) then (-1, out)
  else (RSA_size rsa,
    bigEndian (RSA_size rsa) (BN_mod_exp (BN_bin2bn (frm.take flen)) rsa.d rsa.n))

/-- Modelled from the spec: `RSA_public_decrypt(flen, from, to, rsa, RSA_NO_PADDING)`
of OpenSSL, which is not in the repository. The result is the status the call returns
and the content of `to` after the call. The first `flen` bytes of `from` are read as a
big-endian integer `s`. The library refuses its input when `flen` exceeds
`RSA_size(rsa)` or when `s` is not below the modulus: it then returns -1 and does not
write to `to`. Otherwise it writes `s^e mod n`, big-endian on exactly `RSA_size(rsa)`
bytes, and returns `RSA_size(rsa)`. -/
def RSA_public_decrypt (flen : Nat) (frm out : List Byte) (rsa : RSA) : Int × List Byte :=
  if RSA_size rsa < flen then (-1, out)
  else if rsa.n ≤ BN_bin2bn (frm.take flen) then (-1, out)
  else (RSA_size rsa,
    bigEndian (RSA_size rsa) (BN_mod_exp (BN_bin2bn (frm.take flen)) rsa.e rsa.n))

/-! ## The binding layer -/

/-- The JavaScript exceptions the binding throws. -/
inductive Exception
  | TypeError (msg : String)
  | Error (msg : String)
deriving DecidableEq, Repr

deriving instance DecidableEq for Except

/-- The JavaScript values the binding is called with: binary data (a `Buffer` or a
binary string) or a public-key object with the properties `n` and `e`. -/
inductive Value
  | binary (data : List Byte)
  | publicKey (n e : List Byte)
deriving DecidableEq, Repr

/-- The byte content of a value (`Buffer::Data`/`Buffer::Length`, or
`DecodeBytes`/`DecodeWrite`). The source does not check the kind of its arguments;
a value of the wrong kind is outside the model and reads as the empty buffer. -/
def Value.bytes : Value → List Byte
  | .binary data => data
  | .publicKey _ _ => []

/-- The property read `pubKey->Get(String::NewSymbol("n"))`. -/
def Value.getN : Value → Value
  | .publicKey n _ => .binary n
  | .binary _ => .binary []

/-- The property read `pubKey->Get(String::NewSymbol("e"))`. -/
def Value.getE : Value → Value
  | .publicKey _ e => .binary e
  | .binary _ => .binary []

/-- The function `makeBuffer(data, length)`: a fresh `Buffer` holding the first
`length` bytes of `data`. -/
def makeBuffer (data : List Byte) (length : Nat) : List Byte :=
  data.take length

/-- The function `binaryToBIO(bin)`: a memory BIO holding the bytes of `bin`. The
`NULL` results of the source (allocation or decoding failure) do not arise for
binary data. -/
def binaryToBIO (bin : Value) : Option BIO :=
  some (BIO_write BIO_new bin.bytes bin.bytes.length)

/-- The function `BIOToBinary(bp)`: the content of the BIO. -/
def BIOToBinary (bp : BIO) : List Byte :=
  (BIO_get_mem_data bp).2

/-- The function `bnToBinary(bn)`: the minimal big-endian bytes of `bn`, or `Null`
(here `none`) when `BN_bn2bin` wrote nothing. -/
def bnToBinary (bn : Nat) : Option (List Byte) :=
  let data := BN_bn2bin bn
  let len := data.length
  if len > 0 then some (makeBuffer data len) else none

/-- The function `binaryToBn(bin)`. -/
def binaryToBn (bin : Value) : Nat :=
  BN_bin2bn (bin.bytes.take bin.bytes.length)

/-- What `PEM_read_bio_PrivateKey` yields when it succeeds: a key whose type is RSA,
or a key of another type. -/
inductive EVP_PKEY
  | rsa (key : RSA)
  | other
deriving DecidableEq, Repr

/-- An array `unsigned char buf[len]` that the source declares and does not initialise:
it holds the `len` bytes that the stack held there. -/
def uninitialised (stack : Nat → Byte) (len : Nat) : List Byte :=
  (List.range len).map stack

/-- The function `SignRSASHA256(args)`. `PEM_read_bio_PrivateKey` is the PEM reader
of OpenSSL (`none` for `NULL`) and `stack` the content of the stack where `sigBuf` is
declared. The status of `RSA_private_encrypt` is dropped, as in the source. The
`printf` tracing is left out. -/
def SignRSASHA256 (SHA256 : List Byte → Digest)
    (PEM_read_bio_PrivateKey : BIO → Option EVP_PKEY) (stack : Nat → Byte)
    (args : List Value) : Except Exception (List Byte) :=
  match args with
  | [m, privKey] =>
    match binaryToBIO privKey with
    | none => .error (.Error "BIO error")
    | some bp =>
      match PEM_read_bio_PrivateKey bp with
      | some (.rsa rsa) =>
        let emsa := EMSA_PKCS1_v1_5 SHA256 m.bytes (BN_num_bytes rsa.n)
        let (emsaLen, emsaData) := BIO_get_mem_data emsa
        let sigLen := RSA_size rsa
        let sigBuf := uninitialised stack sigLen
        let sigBuf := (RSA_private_encrypt emsaLen emsaData sigBuf rsa).2
        .ok (makeBuffer sigBuf sigLen)
      | _ => .error (.Error "Cannot read key")
  | _ => .error (.TypeError "Bad argument")

/-- The function `VerifyRSASHA256(args)`. `stack` is the content of the stack where
`rsigBuf` is declared. The private exponent of the `RSA` object built from the public
key stays unset (here 0) and is never read. The status of `RSA_public_decrypt` is
dropped, as in the source. The final test is
`rsigLen == emsaLen && memcmp(rsigBuf, emsaData, rsigLen) == 0`. The `printf`
tracing is left out. -/
def VerifyRSASHA256 (SHA256 : List Byte → Digest) (stack : Nat → Byte)
    (args : List Value) : Except Exception Bool :=
  match args with
  | [m, sig, pubKey] =>
    let sigLen := sig.bytes.length
    let sigBuf := sig.bytes
    let rsa : RSA := { n := binaryToBn pubKey.getN, e := binaryToBn pubKey.getE, d := 0 }
    let rsigLen := RSA_size rsa
    let rsigBuf := uninitialised stack rsigLen
    let rsigBuf := (RSA_public_decrypt sigLen sigBuf rsigBuf rsa).2
    let emsa := EMSA_PKCS1_v1_5 SHA256 m.bytes (BN_num_bytes rsa.n)
    let (emsaLen, emsaData) := BIO_get_mem_data emsa
    let status := rsigLen == emsaLen && rsigBuf.take rsigLen == emsaData.take rsigLen
    .ok status
  | _ => .error (.TypeError "Bad argument")

/-- The `public` object of the result of `Generate`; a component is `none` where
the source stores `Null`. -/
structure PublicKey where
  n : Option (List Byte)
  e : Option (List Byte)
deriving DecidableEq, Repr

/-- The result object of `Generate`: `{ public: { n, e }, private }`. -/
structure KeyPair where
  publicKey : PublicKey
  privateKey : Option (List Byte)
deriving DecidableEq, Repr

/-- The function `Generate(args)`. `RSA_generate_key_ex bits e` is the key generator
of OpenSSL (`none` when it reports failure) and `PEM_write_bio_RSAPrivateKey` its PEM
writer (`none` when it reports failure). -/
def Generate (RSA_generate_key_ex : Nat → Nat → Option RSA)
    (PEM_write_bio_RSAPrivateKey : RSA → Option BIO)
    (_args : List Value) : Except Exception KeyPair :=
  let bn_e := BN_hex2bn "10001".toList
  match RSA_generate_key_ex 1024 bn_e with
  | none => .error (.Error "Cannot generate")
  | some rsa =>
    let publicKey : PublicKey := { n := bnToBinary rsa.n, e := bnToBinary rsa.e }
    let privateKey : Option (List Byte) :=
      match PEM_write_bio_RSAPrivateKey rsa with
      | some bp => some (BIOToBinary bp)
      | none => none
    .ok { publicKey := publicKey, privateKey := privateKey }

/-! ## SHA-256

Modelled from the spec: the digest routine `SHA256` of OpenSSL is not in the
repository. The definitions of this section follow FIPS 180-4; the constants are
computed from their definition and `sha256_known_answers` checks two published
digests. -/

/-- The integer part of the `e`-th root of `x`, found bit by bit from bit `b - 1` down;
`r` is the part found so far. -/
def rootBits (e x : Nat) : Nat → Nat → Nat
  | 0, r => r
  | b + 1, r => if (r + 2 ^ b) ^ e ≤ x then rootBits e x b (r + 2 ^ b) else rootBits e x b r

/-- The first 32 bits of the fractional part of the `e`-th root of `p`, for `p` below
`16^e` (the root times `2^32` then fits in 36 bits): the constants of SHA-256 are
defined so. -/
def fractionalRoot (e p : Nat) : Nat :=
  rootBits e (p * 2 ^ (32 * e)) 36 0 % 4294967296

/-- Trial division of `n` by `d`, `d + 1`, ... as long as the square of the divisor does
not exceed `n`; `fuel` bounds the number of divisors tried. -/
def noDivisorFrom (n : Nat) : Nat → Nat → Bool
  | 0, _ => true
  | fuel + 1, d =>
    if n < d * d then true
    else if n % d = 0 then false
    else noDivisorFrom n fuel (d + 1)

/-- Primality by trial division. -/
def isPrime (n : Nat) : Bool :=
  decide (2 ≤ n) && noDivisorFrom n n 2

/-- The round constants of SHA-256: the first 32 bits of the fractional parts of the
cube roots of the first 64 primes, 2 to 311. -/
def sha256K : List Nat :=
  ((List.range 312).filter isPrime).map (fractionalRoot 3)

/-- The eight 32-bit working words of SHA-256. -/
structure HashState where
  a : Nat
  b : Nat
  c : Nat
  d : Nat
  e : Nat
  f : Nat
  g : Nat
  h : Nat

/-- The initial hash value of SHA-256: the first 32 bits of the fractional parts of the
square roots of the first 8 primes. -/
def sha256H0 : HashState :=
  ⟨fractionalRoot 2 2, fractionalRoot 2 3, fractionalRoot 2 5, fractionalRoot 2 7,
   fractionalRoot 2 11, fractionalRoot 2 13, fractionalRoot 2 17, fractionalRoot 2 19⟩

/-- Rotation of a 32-bit word to the right by `n` bits. -/
def rotr (x n : Nat) : Nat :=
  (x >>> n) ||| ((x <<< (32 - n)) % 4294967296)

/-- The big-endian 32-bit words of a byte string (a trailing partial word is dropped). -/
def wordsOf : List Byte → List Nat
  | a :: b :: c :: d :: rest =>
    (((a.val * 256 + b.val) * 256 + c.val) * 256 + d.val) :: wordsOf rest
  | _ => []

/-- The padding of SHA-256: the byte `80`, zero bytes up to 56 modulo 64, and the bit
length of the message on 8 bytes. -/
def sha256Pad (m : List Byte) : List Byte :=
  m ++ [0x80] ++ List.replicate ((119 - m.length % 64) % 64) 0
    ++ bigEndian 8 (m.length * 8)

/-- The message schedule: `t` more words are added to `w`, which holds the words so far,
newest first. -/
def sha256Schedule : Nat → List Nat → List Nat
  | 0, w => w
  | t + 1, w =>
    let w2 := w.getD 1 0
    let w7 := w.getD 6 0
    let w15 := w.getD 14 0
    let w16 := w.getD 15 0
    let s0 := rotr w15 7 ^^^ rotr w15 18 ^^^ (w15 >>> 3)
    let s1 := rotr w2 17 ^^^ rotr w2 19 ^^^ (w2 >>> 10)
    sha256Schedule t (((s1 + w7 + s0 + w16) % 4294967296) :: w)

/-- One round of the compression function, with the round constant and the schedule
word in `kw`. -/
def sha256Round (s : HashState) (kw : Nat × Nat) : HashState :=
  let S1 := rotr s.e 6 ^^^ rotr s.e 11 ^^^ rotr s.e 25
  let ch := (s.e &&& s.f) ^^^ ((s.e ^^^ 4294967295) &&& s.g)
  let t1 := (s.h + S1 + ch + kw.1 + kw.2) % 4294967296
  let S0 := rotr s.a 2 ^^^ rotr s.a 13 ^^^ rotr s.a 22
  let maj := (s.a &&& s.b) ^^^ (s.a &&& s.c) ^^^ (s.b &&& s.c)
  let t2 := (S0 + maj) % 4294967296
  ⟨(t1 + t2) % 4294967296, s.a, s.b, s.c, (s.d + t1) % 4294967296, s.e, s.f, s.g⟩

/-- The compression of one 16-word block into the hash value. -/
def sha256Compress (h : HashState) (block : List Nat) : HashState :=
  let w := (sha256Schedule 48 block.reverse).reverse
  let s := (sha256K.zip w).foldl sha256Round h
  ⟨(h.a + s.a) % 4294967296, (h.b + s.b) % 4294967296, (h.c + s.c) % 4294967296,
   (h.d + s.d) % 4294967296, (h.e + s.e) % 4294967296, (h.f + s.f) % 4294967296,
   (h.g + s.g) % 4294967296, (h.h + s.h) % 4294967296⟩

/-- The first `n` blocks of 16 words of a word string. -/
def sha256Blocks : Nat → List Nat → List (List Nat)
  | 0, _ => []
  | n + 1, ws => ws.take 16 :: sha256Blocks n (ws.drop 16)

/-- Modelled from the spec: the routine `SHA256(data, len, md)` of OpenSSL, which is not
in the repository: the SHA-256 digest of FIPS 180-4, 32 bytes. It instantiates the
parameter `SHA256` in the closed examples; the theorems hold for every digest
function. -/
def sha256 (m : List Byte) : Digest :=
  let p := sha256Pad m
  let s := (sha256Blocks (p.length / 64) (wordsOf p)).foldl sha256Compress sha256H0
  ⟨bigEndian 4 s.a ++ bigEndian 4 s.b ++ bigEndian 4 s.c ++ bigEndian 4 s.d
    ++ bigEndian 4 s.e ++ bigEndian 4 s.f ++ bigEndian 4 s.g ++ bigEndian 4 s.h,
   by simp [bigEndian, SHA256_DIGEST_LENGTH]⟩

/-! ## Sample data for closed examples -/

/-- A stack that holds zero bytes. -/
def zeroStack : Nat → Byte :=
  fun _ => 0

/-- An RSA key for closed examples: the modulus is the product of the Mersenne primes
`2^127 - 1` and `2^521 - 1` (648 bits, 81 bytes), the public exponent is 65537 and
`d` is its inverse modulo `(p - 1) * (q - 1)`. -/
def sampleKey : RSA where
  n := (2 ^ 127 - 1) * (2 ^ 521 - 1)
  e := 65537
  d := 193900767558032071937636487021452117448910287312278971207800283425644781136078887330150457137153435273259066364624685827854923748501752122182388647400968388233585136878839649485385373845435689473

/-- The bytes that stand for a serialized private key in closed examples. -/
def samplePEM : List Byte := [0x4B, 0x45, 0x59]

/-- A stand-in for the PEM reader in closed examples: it reads `samplePEM` as the RSA
key `key` and rejects every other input. -/
def sampleReader (key : RSA) : BIO → Option EVP_PKEY :=
  fun bp => if bp = samplePEM then some (.rsa key) else none

/-- A stand-in for the PEM writer in closed examples: every key is written as
`samplePEM`. -/
def sampleWriter : RSA → Option BIO :=
  fun _ => some samplePEM

/-- A stand-in for the key generator in closed examples: it hands out `sampleKey`
with the exponent it was asked for, whatever size was asked for. -/
def sampleGenerator : Nat → Nat → Option RSA :=
  fun _ e => some { sampleKey with e := e }

/-- The ASCII bytes of `abc`. -/
def abc : List Byte := [97, 98, 99]

/-- The ASCII bytes of `message 153`. -/
def message153 : List Byte := [109, 101, 115, 115, 97, 103, 101, 32, 49, 53, 51]

/-- The signature of `abc` under `sampleKey` with SHA-256: 81 bytes. -/
def abcSignature : List Byte :=
  [96, 122, 4, 169, 146, 15, 254, 127, 221, 2, 212, 252, 196, 10, 12, 38, 20, 109, 117, 117,
   199, 38, 140, 246, 66, 248, 173, 186, 167, 39, 49, 98, 62, 189, 8, 232, 28, 124, 246, 117,
   136, 196, 13, 77, 114, 64, 47, 97, 97, 211, 170, 154, 91, 235, 81, 139, 236, 171, 144, 146,
   60, 180, 47, 4, 231, 113, 24, 242, 6, 175, 63, 166, 217, 168, 15, 34, 217, 65, 60, 63, 130]

/-- The signature of `message 153` under `sampleKey` with SHA-256, without its first
byte, which is zero: 80 bytes instead of 81. -/
def shortSignature : List Byte :=
  [84, 87, 42, 211, 139, 113, 126, 90, 46, 203, 30, 120, 6, 119, 183, 72, 50, 3, 135, 149, 147,
   89, 198, 231, 2, 45, 40, 209, 250, 69, 225, 38, 59, 219, 69, 39, 15, 22, 50, 252, 202, 194,
   194, 156, 157, 217, 173, 202, 172, 80, 137, 209, 226, 235, 156, 100, 43, 186, 198, 255, 78,
   175, 88, 116, 144, 151, 138, 204, 88, 150, 230, 65, 10, 134, 135, 195, 181, 240, 5, 66]

/-! ## Theorems -/

/-! ### Buffers and the encoder -/

theorem writePadding_eq (t : Nat) (result : BIO) :
    writePadding t result = result ++ List.replicate t 0xFF := by
  induction t generalizing result with
  | zero => simp [writePadding]
  | succ t ih =>
    simp only [writePadding, ih, BIO_write]
    simp [List.replicate_succ]

theorem digest_take (d : Digest) : d.val.take 32 = d.val := by
  apply List.take_of_length_le
  rw [d.property]; decide

theorem intSub_of_ge (a b : Int) (h : INT_MIN ≤ a - b) : intSub a b = a - b := by
  unfold intSub
  rw [if_neg (by omega)]

theorem loopBound_of_ge (k : Int) (hk : INT_MIN + 54 ≤ k) : intSub (intSub k 51) 3 = k - 54 := by
  unfold INT_MIN at hk
  rw [intSub_of_ge k 51 (by unfold INT_MIN; omega),
    intSub_of_ge (k - 51) 3 (by unfold INT_MIN; omega)]
  omega

theorem EMSA_eq_bound (SHA256 : List Byte → Digest) (m : List Byte) (k : Int) :
    EMSA_PKCS1_v1_5 SHA256 m k
      = [0x00, 0x01] ++ List.replicate (intSub (intSub k 51) 3).toNat 0xFF ++ [0x00]
          ++ emsaPrefix ++ (SHA256 m).val := by
  have hk : ((19 : Nat) : Int) + ((32 : Nat) : Int) = 51 := by norm_num
  simp only [EMSA_PKCS1_v1_5, SHA256_DIGEST_LENGTH, writePadding_eq, BIO_write, BIO_new, hk,
    digest_take]
  simp [emsaPrefix]

theorem EMSA_length_bound (SHA256 : List Byte → Digest) (m : List Byte) (k : Int) :
    (EMSA_PKCS1_v1_5 SHA256 m k).length = 54 + (intSub (intSub k 51) 3).toNat := by
  rw [EMSA_eq_bound]
  simp [emsaPrefix, (SHA256 m).property, SHA256_DIGEST_LENGTH]
  omega

theorem EMSA_eq (SHA256 : List Byte → Digest) (m : List Byte) (k : Int)
    (hk : INT_MIN + 54 ≤ k) :
    EMSA_PKCS1_v1_5 SHA256 m k
      = [0x00, 0x01] ++ List.replicate (k - 54).toNat 0xFF ++ [0x00]
          ++ emsaPrefix ++ (SHA256 m).val := by
  rw [EMSA_eq_bound, loopBound_of_ge k hk]

theorem EMSA_length (SHA256 : List Byte → Digest) (m : List Byte) (k : Int)
    (hk : INT_MIN + 54 ≤ k) :
    (EMSA_PKCS1_v1_5 SHA256 m k).length = 54 + (k - 54).toNat := by
  rw [EMSA_length_bound, loopBound_of_ge k hk]

theorem EMSA_small (SHA256 : List Byte → Digest) (m : List Byte) (k : Int)
    (hlo : INT_MIN + 54 ≤ k) (hk : k ≤ 54) :
    EMSA_PKCS1_v1_5 SHA256 m k = [0x00, 0x01, 0x00] ++ emsaPrefix ++ (SHA256 m).val := by
  have h0 : (k - 54).toNat = 0 := by omega
  rw [EMSA_eq SHA256 m k hlo, h0]
  simp

theorem int_min_le_of_nonneg (k : Int) (hk : 0 ≤ k) : INT_MIN + 54 ≤ k := by
  unfold INT_MIN
  omega

/-! ### Big-endian conversions -/

theorem foldl_bin2bn (s : List Byte) (acc : Nat) :
    s.foldl (fun acc b => acc * 256 + b.val) acc
      = acc * 256 ^ s.length + s.foldl (fun acc b => acc * 256 + b.val) 0 := by
  induction s generalizing acc with
  | nil => simp
  | cons b t ih =>
    simp only [List.foldl_cons, List.length_cons]
    rw [ih (acc * 256 + b.val), ih (0 * 256 + b.val)]
    ring

theorem BN_bin2bn_nil : BN_bin2bn [] = 0 := rfl

theorem BN_bin2bn_cons (b : Byte) (s : List Byte) :
    BN_bin2bn (b :: s) = b.val * 256 ^ s.length + BN_bin2bn s := by
  simp only [BN_bin2bn, List.foldl_cons]
  rw [foldl_bin2bn]
  simp

theorem BN_bin2bn_snoc (s : List Byte) (b : Byte) :
    BN_bin2bn (s ++ [b]) = BN_bin2bn s * 256 + b.val := by
  simp [BN_bin2bn, List.foldl_append]

theorem BN_bin2bn_lt (s : List Byte) : BN_bin2bn s < 256 ^ s.length := by
  induction s with
  | nil => simp [BN_bin2bn]
  | cons b t ih =>
    rw [BN_bin2bn_cons, List.length_cons, pow_succ]
    have hb : b.val < 256 := b.isLt
    have hp : 0 < 256 ^ t.length := by positivity
    nlinarith

theorem bigEndian_length (len a : Nat) : (bigEndian len a).length = len := by
  induction len generalizing a with
  | zero => simp [bigEndian]
  | succ len ih => simp [bigEndian, ih]

theorem BN_bin2bn_bigEndian (len a : Nat) : BN_bin2bn (bigEndian len a) = a % 256 ^ len := by
  induction len generalizing a with
  | zero => simp [bigEndian, BN_bin2bn, Nat.mod_one]
  | succ len ih =>
    simp only [bigEndian, BN_bin2bn_snoc, ih]
    rw [pow_succ, Nat.mul_comm (256 ^ len) 256, Nat.mod_mul]
    ring

theorem bigEndian_bin2bn (s : List Byte) : bigEndian s.length (BN_bin2bn s) = s := by
  induction s using List.reverseRecOn with
  | nil => simp [bigEndian]
  | append_singleton t b ih =>
    have hb : b.val < 256 := b.isLt
    have h1 : (BN_bin2bn t * 256 + b.val) / 256 = BN_bin2bn t := by omega
    have h2 : (BN_bin2bn t * 256 + b.val) % 256 = b.val := by omega
    simp only [List.length_append, List.length_singleton, bigEndian, BN_bin2bn_snoc, h1, ih]
    congr 2
    exact Fin.ext h2

/-! ### Byte length of a big number -/

theorem countBits_zero (fuel : Nat) : countBits fuel 0 = 0 := by
  cases fuel <;> simp [countBits]

theorem countBits_spec (fuel a : Nat) (h : a ≤ fuel) :
    a < 2 ^ countBits fuel a ∧ (a ≠ 0 → 2 ^ (countBits fuel a - 1) ≤ a) := by
  induction fuel generalizing a with
  | zero =>
    have : a = 0 := by omega
    subst this
    simp [countBits]
  | succ fuel ih =>
    by_cases ha : a = 0
    · subst ha; simp [countBits]
    · have hle : a / 2 ≤ fuel := by omega
      obtain ⟨h1, h2⟩ := ih (a / 2) hle
      simp only [countBits, ha, if_false, Nat.add_sub_cancel]
      refine ⟨?_, fun _ => ?_⟩
      · rw [pow_succ]; omega
      · by_cases hh : a / 2 = 0
        · rw [hh, countBits_zero]; simp; omega
        · have h3 := h2 hh
          have hpos : countBits fuel (a / 2) ≠ 0 := by
            intro h0
            rw [h0] at h1
            simp at h1
            exact hh h1
          obtain ⟨c, hc⟩ := Nat.exists_eq_succ_of_ne_zero hpos
          rw [hc] at h3 ⊢
          simp only [Nat.succ_sub_one] at h3
          rw [Nat.succ_eq_add_one, pow_succ]
          omega

theorem BN_num_bytes_zero : BN_num_bytes 0 = 0 := by decide

theorem BN_num_bytes_upper (n : Nat) : n < 256 ^ BN_num_bytes n := by
  have h := (countBits_spec n n (Nat.le_refl n)).1
  have h256 : (256 : Nat) ^ BN_num_bytes n = 2 ^ (8 * BN_num_bytes n) := by
    rw [pow_mul]; norm_num
  rw [h256]
  refine Nat.lt_of_lt_of_le h (Nat.pow_le_pow_right (by decide) ?_)
  unfold BN_num_bytes BN_num_bits
  omega

theorem BN_num_bytes_lower (n : Nat) (hn : n ≠ 0) : 256 ^ (BN_num_bytes n - 1) ≤ n := by
  have h := (countBits_spec n n (Nat.le_refl n)).2 hn
  have h256 : (256 : Nat) ^ (BN_num_bytes n - 1) = 2 ^ (8 * (BN_num_bytes n - 1)) := by
    rw [pow_mul]; norm_num
  rw [h256]
  refine Nat.le_trans (Nat.pow_le_pow_right (by decide) ?_) h
  unfold BN_num_bytes BN_num_bits
  omega

theorem BN_bin2bn_bn2bin (a : Nat) : BN_bin2bn (BN_bn2bin a) = a := by
  unfold BN_bn2bin
  rw [BN_bin2bn_bigEndian]
  exact Nat.mod_eq_of_lt (BN_num_bytes_upper a)

/-- The big-endian value of an encoded block of at least 54 bytes is below
`256 ^ (k - 1)`: its first byte is zero. -/
theorem EMSA_value_lt (SHA256 : List Byte → Digest) (m : List Byte) (k : Int) (hk : 54 ≤ k) :
    BN_bin2bn (EMSA_PKCS1_v1_5 SHA256 m k) < 256 ^ (k.toNat - 1) := by
  have hlo : INT_MIN + 54 ≤ k := int_min_le_of_nonneg k (by omega)
  obtain ⟨rest, hE⟩ : ∃ rest, EMSA_PKCS1_v1_5 SHA256 m k = (0 : Byte) :: rest :=
    ⟨_, by rw [EMSA_eq SHA256 m k hlo]; rfl⟩
  have hlen := EMSA_length SHA256 m k hlo
  rw [hE, List.length_cons] at hlen
  have hrest : rest.length = k.toNat - 1 := by omega
  rw [hE, BN_bin2bn_cons, ← hrest]
  simpa using BN_bin2bn_lt rest

/-! ### Modular exponentiation -/

theorem modExpAux_eq (fuel a p m : Nat) (h : p ≤ fuel) : modExpAux fuel a p m = a ^ p % m := by
  induction fuel generalizing p with
  | zero =>
    have : p = 0 := by omega
    subst this
    simp [modExpAux]
  | succ fuel ih =>
    by_cases hp : p = 0
    · subst hp; simp [modExpAux]
    · have hle : p / 2 ≤ fuel := by omega
      have hsq : a ^ (p / 2) % m * (a ^ (p / 2) % m) % m = a ^ (2 * (p / 2)) % m := by
        rw [← Nat.mul_mod, ← pow_add]
        congr 2
        omega
      simp only [modExpAux, hp, if_false, ih (p / 2) hle, hsq]
      by_cases hodd : p % 2 = 1
      · simp only [hodd, if_true]
        rw [Nat.mod_mul_mod, ← pow_succ]
        congr 2
        omega
      · simp only [hodd, if_false]
        congr 2
        omega

theorem BN_mod_exp_eq (a p m : Nat) : BN_mod_exp a p m = a ^ p % m :=
  modExpAux_eq p a p m (Nat.le_refl p)

/-! ### The raw transforms, the verifier and the signer, unfolded -/

theorem uninitialised_length (stack : Nat → Byte) (len : Nat) :
    (uninitialised stack len).length = len := by
  simp [uninitialised]

theorem public_decrypt_accepted (flen : Nat) (frm out : List Byte) (rsa : RSA)
    (hlen : flen ≤ RSA_size rsa) (hval : BN_bin2bn (frm.take flen) < rsa.n) :
    (RSA_public_decrypt flen frm out rsa).2
      = bigEndian (RSA_size rsa) (BN_bin2bn (frm.take flen) ^ rsa.e % rsa.n) := by
  unfold RSA_public_decrypt
  rw [if_neg (by omega), if_neg (by omega), BN_mod_exp_eq]

theorem public_decrypt_refused (flen : Nat) (frm out : List Byte) (rsa : RSA)
    (hlen : RSA_size rsa < flen) :
    (RSA_public_decrypt flen frm out rsa).2 = out := by
  unfold RSA_public_decrypt
  rw [if_pos hlen]

theorem public_decrypt_length (flen : Nat) (frm out : List Byte) (rsa : RSA)
    (hout : out.length = RSA_size rsa) :
    (RSA_public_decrypt flen frm out rsa).2.length = RSA_size rsa := by
  unfold RSA_public_decrypt
  split
  · exact hout
  · split
    · exact hout
    · exact bigEndian_length _ _

theorem private_encrypt_accepted (flen : Nat) (frm out : List Byte) (rsa : RSA)
    (hlen : flen = RSA_size rsa) (hval : BN_bin2bn (frm.take flen) < rsa.n) :
    (RSA_private_encrypt flen frm out rsa).2
      = bigEndian (RSA_size rsa) (BN_bin2bn (frm.take flen) ^ rsa.d % rsa.n) := by
  unfold RSA_private_encrypt
  rw [if_neg (by omega), if_neg (by omega), BN_mod_exp_eq]

/-- The verifier compares the array `rsigBuf`, as the raw public transform left it, with
the encoded block. -/
theorem verify_unfold (SHA256 : List Byte → Digest) (stack : Nat → Byte)
    (m s nb eb : List Byte) :
    VerifyRSASHA256 SHA256 stack [.binary m, .binary s, .publicKey nb eb]
      = .ok (decide
          ((RSA_public_decrypt s.length s (uninitialised stack (BN_num_bytes (BN_bin2bn nb)))
              { n := BN_bin2bn nb, e := BN_bin2bn eb, d := 0 }).2
            = EMSA_PKCS1_v1_5 SHA256 m (BN_num_bytes (BN_bin2bn nb)))) := by
  have hr := public_decrypt_length s.length s (uninitialised stack (BN_num_bytes (BN_bin2bn nb)))
    { n := BN_bin2bn nb, e := BN_bin2bn eb, d := 0 } (uninitialised_length _ _)
  simp only [RSA_size] at hr
  simp only [VerifyRSASHA256, Value.bytes, Value.getN, Value.getE, binaryToBn, RSA_size,
    BIO_get_mem_data, List.take_length]
  congr 1
  by_cases hlen : BN_num_bytes (BN_bin2bn nb)
      = (EMSA_PKCS1_v1_5 SHA256 m (BN_num_bytes (BN_bin2bn nb))).length
  · rw [List.take_of_length_le (Nat.le_of_eq hr),
      List.take_of_length_le (Nat.le_of_eq hlen.symm), Bool.eq_iff_iff]
    simp [← hlen]
  · have hne : (RSA_public_decrypt s.length s
          (uninitialised stack (BN_num_bytes (BN_bin2bn nb)))
          { n := BN_bin2bn nb, e := BN_bin2bn eb, d := 0 }).2
        ≠ EMSA_PKCS1_v1_5 SHA256 m (BN_num_bytes (BN_bin2bn nb)) := by
      intro h
      apply hlen
      rw [← h, hr]
    simp [hlen, hne]

/-- The verifier on a signature that the raw public transform accepts. -/
theorem verify_accepted (SHA256 : List Byte → Digest) (stack : Nat → Byte)
    (m s nb eb : List Byte) (hlen : s.length ≤ BN_num_bytes (BN_bin2bn nb))
    (hval : BN_bin2bn s < BN_bin2bn nb) :
    VerifyRSASHA256 SHA256 stack [.binary m, .binary s, .publicKey nb eb]
      = .ok (decide
          (bigEndian (BN_num_bytes (BN_bin2bn nb)) (BN_bin2bn s ^ BN_bin2bn eb % BN_bin2bn nb)
            = EMSA_PKCS1_v1_5 SHA256 m (BN_num_bytes (BN_bin2bn nb)))) := by
  rw [verify_unfold, public_decrypt_accepted _ _ _ _ (by simpa [RSA_size] using hlen)
    (by simpa using hval)]
  simp [RSA_size]

/-- The verifier on a signature longer than the modulus: the raw public transform
refuses it and `rsigBuf` keeps what the stack held. -/
theorem verify_refused (SHA256 : List Byte → Digest) (stack : Nat → Byte)
    (m s nb eb : List Byte) (hlen : BN_num_bytes (BN_bin2bn nb) < s.length) :
    VerifyRSASHA256 SHA256 stack [.binary m, .binary s, .publicKey nb eb]
      = .ok (decide
          (uninitialised stack (BN_num_bytes (BN_bin2bn nb))
            = EMSA_PKCS1_v1_5 SHA256 m (BN_num_bytes (BN_bin2bn nb)))) := by
  rw [verify_unfold, public_decrypt_refused _ _ _ _ (by simpa [RSA_size] using hlen)]

/-- The signer with a modulus of at least 54 bytes: the raw private transform accepts
the encoded block. -/
theorem sign_accepted (SHA256 : List Byte → Digest) (reader : BIO → Option EVP_PKEY)
    (stack : Nat → Byte) (m priv : List Byte) (rsa : RSA)
    (hkey : reader priv = some (.rsa rsa)) (hk : 54 ≤ BN_num_bytes rsa.n) :
    SignRSASHA256 SHA256 reader stack [.binary m, .binary priv]
      = .ok (bigEndian (BN_num_bytes rsa.n)
          (BN_bin2bn (EMSA_PKCS1_v1_5 SHA256 m (BN_num_bytes rsa.n)) ^ rsa.d % rsa.n)) := by
  have hbio : BIO_write BIO_new priv priv.length = priv := by
    simp [BIO_write, BIO_new]
  have hlen : (EMSA_PKCS1_v1_5 SHA256 m (BN_num_bytes rsa.n)).length = BN_num_bytes rsa.n := by
    rw [EMSA_length SHA256 m _ (int_min_le_of_nonneg _ (by omega))]; omega
  have hn0 : rsa.n ≠ 0 := by
    intro h0
    rw [h0, BN_num_bytes_zero] at hk
    omega
  have hc : BN_bin2bn (EMSA_PKCS1_v1_5 SHA256 m (BN_num_bytes rsa.n)) < rsa.n :=
    Nat.lt_of_lt_of_le (EMSA_value_lt SHA256 m (BN_num_bytes rsa.n) (by omega))
      (by simpa using BN_num_bytes_lower rsa.n hn0)
  have htake : (EMSA_PKCS1_v1_5 SHA256 m (BN_num_bytes rsa.n)).take
      (EMSA_PKCS1_v1_5 SHA256 m (BN_num_bytes rsa.n)).length
        = EMSA_PKCS1_v1_5 SHA256 m (BN_num_bytes rsa.n) := List.take_length _
  simp only [SignRSASHA256, binaryToBIO, Value.bytes, hbio, hkey, BIO_get_mem_data, makeBuffer]
  rw [private_encrypt_accepted _ _ _ _ (by rw [hlen]; rfl) (by rw [htake]; exact hc), htake]
  congr 1
  exact List.take_of_length_le (by rw [bigEndian_length])

/-! ### Claims about the encoder -/

/-- C1: for every message and every `k ≥ 54` the encoded block is exactly
`00 01`, then `k - 54` bytes `FF`, then `00`, then the 19-byte SHA-256 prefix, then
the digest of the message, which has 32 bytes. -/
theorem EMSA_layout (SHA256 : List Byte → Digest) (m : List Byte) (k : Int) (hk : 54 ≤ k) :
    EMSA_PKCS1_v1_5 SHA256 m k
      = [0x00, 0x01] ++ List.replicate (k - 54).toNat 0xFF ++ [0x00]
          ++ [0x30, 0x31, 0x30, 0x0D, 0x06, 0x09, 0x60, 0x86, 0x48, 0x01, 0x65, 0x03, 0x04,
              0x02, 0x01, 0x05, 0x00, 0x04, 0x20]
          ++ (SHA256 m).val
    ∧ ((k - 54).toNat : Int) = k - 54
    ∧ (SHA256 m).val.length = 32 := by
  refine ⟨?_, by omega, (SHA256 m).property⟩
  rw [EMSA_eq SHA256 m k (int_min_le_of_nonneg k (by omega))]
  rfl

/-- Witness of C1 at `k = 56` (two padding bytes) for the empty message. -/
theorem EMSA_layout_witness :
    (54 : Int) ≤ 56 ∧
    EMSA_PKCS1_v1_5 sha256 [] 56
      = [0x00, 0x01] ++ List.replicate ((56 : Int) - 54).toNat 0xFF ++ [0x00]
          ++ [0x30, 0x31, 0x30, 0x0D, 0x06, 0x09, 0x60, 0x86, 0x48, 0x01, 0x65, 0x03, 0x04,
              0x02, 0x01, 0x05, 0x00, 0x04, 0x20]
          ++ (sha256 []).val :=
  ⟨by decide, (EMSA_layout sha256 [] 56 (by decide)).1⟩

/-- Counterexample to C2: asked for a block of 10 bytes, the encoder returns 54. -/
theorem EMSA_length_counterexample :
    (EMSA_PKCS1_v1_5 sha256 [] 10).length = 54
      ∧ ((EMSA_PKCS1_v1_5 sha256 [] 10).length : Int) ≠ 10 := by
  decide

/-- C2 (amended): for every message and every `k ≥ 54` the encoded block has exactly
`k` bytes. -/
theorem EMSA_length_of_ge (SHA256 : List Byte → Digest) (m : List Byte) (k : Int)
    (hk : 54 ≤ k) :
    ((EMSA_PKCS1_v1_5 SHA256 m k).length : Int) = k := by
  rw [EMSA_length SHA256 m k (int_min_le_of_nonneg k (by omega))]
  omega

/-- Witness of the amended C2 at `k = 128`, the modulus byte length of a generated key. -/
theorem EMSA_length_of_ge_witness :
    (54 : Int) ≤ 128 ∧ ((EMSA_PKCS1_v1_5 sha256 [1, 2, 3] 128).length : Int) = 128 :=
  ⟨by decide, EMSA_length_of_ge sha256 [1, 2, 3] 128 (by decide)⟩

/-- Counterexample to C3: for `k = 2` the encoder does not fail, it returns the 54-byte
block `00 01 00`, prefix, digest. -/
theorem encoding_too_small_counterexample :
    EMSA_PKCS1_v1_5 sha256 abc 2 = [0x00, 0x01, 0x00] ++ emsaPrefix ++ (sha256 abc).val
      ∧ (EMSA_PKCS1_v1_5 sha256 abc 2).length = 54 := by
  decide

/-- C3 (amended): for every message and every `int` `k` with `INT_MIN + 54 ≤ k < 54`
(so for every byte length from 0 to 53) the encoder does not fail: it returns the
54-byte block `00 01 00`, prefix, digest. -/
theorem no_encoding_too_small (SHA256 : List Byte → Digest) (m : List Byte) (k : Int)
    (hlo : INT_MIN + 54 ≤ k) (hk : k < 54) :
    EMSA_PKCS1_v1_5 SHA256 m k = [0x00, 0x01, 0x00] ++ emsaPrefix ++ (SHA256 m).val
      ∧ (EMSA_PKCS1_v1_5 SHA256 m k).length = 54 := by
  refine ⟨EMSA_small SHA256 m k hlo (by omega), ?_⟩
  rw [EMSA_length SHA256 m k hlo]
  omega

/-- Witness of the amended C3 at `k = 0`. -/
theorem no_encoding_too_small_witness :
    INT_MIN + 54 ≤ 0 ∧ (0 : Int) < 54
      ∧ EMSA_PKCS1_v1_5 sha256 [] 0 = [0x00, 0x01, 0x00] ++ emsaPrefix ++ (sha256 []).val :=
  ⟨by decide, by decide, (no_encoding_too_small sha256 [] 0 (by decide) (by decide)).1⟩

/-- Counterexample to C9: at `k = INT_MIN` the loop bound `k - 51 - 3` wraps around to
`2^31 - 54` and the block is not the 54-byte one. -/
theorem EMSA_length_max_counterexample :
    ((EMSA_PKCS1_v1_5 sha256 [] (-2147483648)).length : Int) ≠ max (-2147483648) 54 := by
  have h : intSub (intSub (-2147483648) 51) 3 = 2147483594 := by decide
  rw [EMSA_length_bound, h]
  decide

/-- C9 (amended): for every message and every `int` `k ≥ INT_MIN + 54` (so for every
`k ≥ 0`) the encoder returns a block of `max k 54` bytes, and for `k ≤ 54` that block
is `00 01 00`, the prefix and the digest, whatever `k` is. -/
theorem EMSA_length_max (SHA256 : List Byte → Digest) (m : List Byte) (k : Int)
    (hlo : INT_MIN + 54 ≤ k) :
    ((EMSA_PKCS1_v1_5 SHA256 m k).length : Int) = max k 54
    ∧ (k ≤ 54 →
        EMSA_PKCS1_v1_5 SHA256 m k
          = [0x00, 0x01, 0x00]
            ++ [0x30, 0x31, 0x30, 0x0D, 0x06, 0x09, 0x60, 0x86, 0x48, 0x01, 0x65, 0x03, 0x04,
              0x02, 0x01, 0x05, 0x00, 0x04, 0x20]
            ++ (SHA256 m).val) := by
  constructor
  · rw [EMSA_length SHA256 m k hlo]
    omega
  · intro hk
    rw [EMSA_small SHA256 m k hlo hk]
    rfl

/-- Witness of the amended C9 at `k = -3`: the block is the 54-byte one. -/
theorem EMSA_length_max_witness :
    INT_MIN + 54 ≤ -3 ∧ ((-3 : Int) ≤ 54)
    ∧ EMSA_PKCS1_v1_5 sha256 [1, 2] (-3)
        = [0x00, 0x01, 0x00]
          ++ [0x30, 0x31, 0x30, 0x0D, 0x06, 0x09, 0x60, 0x86, 0x48, 0x01, 0x65, 0x03, 0x04,
              0x02, 0x01, 0x05, 0x00, 0x04, 0x20]
          ++ (sha256 [1, 2]).val :=
  ⟨by decide, by decide, (EMSA_length_max sha256 [1, 2] (-3) (by decide)).2 (by decide)⟩

/-- C10: for every message and every `k ≥ 54` the big-endian value of the encoded
block is below `256 ^ (k - 1)`, hence below every modulus whose byte length is `k`. -/
theorem EMSA_representative_in_range (SHA256 : List Byte → Digest) (m : List Byte) (k : Int)
    (hk : 54 ≤ k) :
    BN_bin2bn (EMSA_PKCS1_v1_5 SHA256 m k) < 256 ^ (k.toNat - 1)
    ∧ ∀ n : Nat, (BN_num_bytes n : Int) = k → BN_bin2bn (EMSA_PKCS1_v1_5 SHA256 m k) < n := by
  have h := EMSA_value_lt SHA256 m k hk
  refine ⟨h, fun n hn => ?_⟩
  have hn0 : n ≠ 0 := by
    rintro rfl
    rw [BN_num_bytes_zero] at hn
    omega
  have hlow := BN_num_bytes_lower n hn0
  have hk2 : k.toNat = BN_num_bytes n := by omega
  rw [hk2] at h
  exact Nat.lt_of_lt_of_le h hlow

/-- Witness of C10 at `k = 54` with the modulus `256 ^ 53`, whose byte length is 54. -/
theorem EMSA_representative_in_range_witness :
    (54 : Int) ≤ 54 ∧ (BN_num_bytes (256 ^ 53) : Int) = 54
      ∧ BN_bin2bn (EMSA_PKCS1_v1_5 sha256 [7] 54) < 256 ^ 53 :=
  ⟨by decide, by decide,
    (EMSA_representative_in_range sha256 [7] 54 (by decide)).2 (256 ^ 53) (by decide)⟩

/-! ### RSA with a two-prime modulus -/

theorem pow_one_add_mul_pred_modEq (p : Nat) (hp : p.Prime) (c t : Nat) :
    c ^ (1 + t * (p - 1)) ≡ c [MOD p] := by
  haveI : Fact p.Prime := ⟨hp⟩
  rw [← ZMod.eq_iff_modEq_nat]
  push_cast
  by_cases hc : (c : ZMod p) = 0
  · rw [hc]; simp
  · rw [pow_add, pow_mul', pow_one, ZMod.pow_card_sub_one_eq_one hc]
    simp

theorem rsa_two_primes (p q e d t : Nat) (hp : p.Prime) (hq : q.Prime) (hpq : p ≠ q)
    (hed : e * d = 1 + t * ((p - 1) * (q - 1))) (c : Nat) (hc : c < p * q) :
    (c ^ d % (p * q)) ^ e % (p * q) = c := by
  rw [← Nat.pow_mod, ← pow_mul, Nat.mul_comm d e, hed]
  have h1 : c ^ (1 + t * ((p - 1) * (q - 1))) ≡ c [MOD p] := by
    have h := pow_one_add_mul_pred_modEq p hp c (t * (q - 1))
    rwa [show t * (q - 1) * (p - 1) = t * ((p - 1) * (q - 1)) by ring] at h
  have h2 : c ^ (1 + t * ((p - 1) * (q - 1))) ≡ c [MOD q] := by
    have h := pow_one_add_mul_pred_modEq q hq c (t * (p - 1))
    rwa [show t * (p - 1) * (q - 1) = t * ((p - 1) * (q - 1)) by ring] at h
  have h := (Nat.modEq_and_modEq_iff_modEq_mul ((Nat.coprime_primes hp hq).2 hpq)).1 ⟨h1, h2⟩
  rw [h, Nat.mod_eq_of_lt hc]

theorem prime_mersenne_127 : Nat.Prime (2 ^ 127 - 1) :=
  lucas_lehmer_sufficiency 127 (by norm_num) (by norm_num)

theorem prime_mersenne_521 : Nat.Prime (2 ^ 521 - 1) :=
  lucas_lehmer_sufficiency 521 (by norm_num) (by norm_num)

/-- The sample key is an RSA key: decrypting with `e` undoes encrypting with `d`. -/
theorem sampleKey_inverse (c : Nat) (hc : c < sampleKey.n) :
    (c ^ sampleKey.d % sampleKey.n) ^ sampleKey.e % sampleKey.n = c :=
  rsa_two_primes (2 ^ 127 - 1) (2 ^ 521 - 1) sampleKey.e sampleKey.d 10880
    prime_mersenne_127 prime_mersenne_521 (by decide) (by decide) c hc

/-- With SHA-256 and `sampleKey` the signer returns `abcSignature` for `abc`, and for
`message 153` a signature whose first byte is zero and whose other bytes are
`shortSignature`. -/
theorem sampleKey_signatures :
    SignRSASHA256 sha256 (sampleReader sampleKey) zeroStack [.binary abc, .binary samplePEM]
        = .ok abcSignature
      ∧ SignRSASHA256 sha256 (sampleReader sampleKey) zeroStack
          [.binary message153, .binary samplePEM]
        = .ok (0x00 :: shortSignature) := by
  decide!

/-- The digest routine returns the published SHA-256 digests of the empty message and
of `abc`. -/
theorem sha256_known_answers :
    (sha256 []).val
        = [0xe3, 0xb0, 0xc4, 0x42, 0x98, 0xfc, 0x1c, 0x14, 0x9a, 0xfb, 0xf4, 0xc8, 0x99, 0x6f,
           0xb9, 0x24, 0x27, 0xae, 0x41, 0xe4, 0x64, 0x9b, 0x93, 0x4c, 0xa4, 0x95, 0x99, 0x1b,
           0x78, 0x52, 0xb8, 0x55]
      ∧ (sha256 abc).val
        = [0xba, 0x78, 0x16, 0xbf, 0x8f, 0x01, 0xcf, 0xea, 0x41, 0x41, 0x40, 0xde, 0x5d, 0xae,
           0x22, 0x23, 0xb0, 0x03, 0x61, 0xa3, 0x96, 0x17, 0x7a, 0x9c, 0xb4, 0x10, 0xff, 0x61,
           0xf2, 0x00, 0x15, 0xad] := by
  decide

/-! ### Claims about signing and verifying -/

/-- C4: for every RSA key `(n, e, d)` whose raw transforms are inverse on the residues
below `n` and whose modulus has at least 54 bytes, and for every message, the
signature that `SignRSASHA256` returns is accepted by `VerifyRSASHA256` under the
public key `(n, e)`, whatever the uninitialised arrays held. -/
theorem sign_verify_roundtrip (SHA256 : List Byte → Digest) (reader : BIO → Option EVP_PKEY)
    (stack stack2 : Nat → Byte) (m priv nb eb : List Byte) (n e d : Nat)
    (hkey : reader priv = some (.rsa { n := n, e := e, d := d }))
    (hn : BN_bin2bn nb = n) (he : BN_bin2bn eb = e)
    (hrsa : ∀ c, c < n → (c ^ d % n) ^ e % n = c)
    (hk : 54 ≤ BN_num_bytes n) :
    (SignRSASHA256 SHA256 reader stack [.binary m, .binary priv]).bind
        (fun sig => VerifyRSASHA256 SHA256 stack2 [.binary m, .binary sig, .publicKey nb eb])
      = .ok true := by
  rw [sign_accepted SHA256 reader stack m priv _ hkey hk]
  simp only [Except.bind]
  have hlen : (EMSA_PKCS1_v1_5 SHA256 m (BN_num_bytes n)).length = BN_num_bytes n := by
    rw [EMSA_length SHA256 m _ (int_min_le_of_nonneg _ (by omega))]; omega
  have hn0 : n ≠ 0 := by
    rintro rfl
    rw [BN_num_bytes_zero] at hk
    omega
  have hc : BN_bin2bn (EMSA_PKCS1_v1_5 SHA256 m (BN_num_bytes n)) < n :=
    Nat.lt_of_lt_of_le (EMSA_value_lt SHA256 m (BN_num_bytes n) (by omega))
      (by simpa using BN_num_bytes_lower n hn0)
  have hpos : 0 < n := by omega
  have hs : BN_bin2bn (bigEndian (BN_num_bytes n)
      (BN_bin2bn (EMSA_PKCS1_v1_5 SHA256 m (BN_num_bytes n)) ^ d % n))
        = BN_bin2bn (EMSA_PKCS1_v1_5 SHA256 m (BN_num_bytes n)) ^ d % n := by
    rw [BN_bin2bn_bigEndian]
    exact Nat.mod_eq_of_lt (Nat.lt_trans (Nat.mod_lt _ hpos) (BN_num_bytes_upper n))
  rw [verify_accepted SHA256 stack2 m _ nb eb
    (by rw [bigEndian_length, hn]) (by rw [hs, hn]; exact Nat.mod_lt _ hpos)]
  rw [hs, hn, he, hrsa _ hc]
  have hback := bigEndian_bin2bn (EMSA_PKCS1_v1_5 SHA256 m (BN_num_bytes n))
  rw [hlen] at hback
  simp [hback]

/-- Witness of C4 with `sampleKey` (81-byte modulus), SHA-256 and the message `abc`. -/
theorem sign_verify_roundtrip_witness :
    54 ≤ BN_num_bytes sampleKey.n
      ∧ (SignRSASHA256 sha256 (sampleReader sampleKey) zeroStack
            [.binary abc, .binary samplePEM]).bind
          (fun sig => VerifyRSASHA256 sha256 zeroStack
            [.binary abc, .binary sig, .publicKey (BN_bn2bin sampleKey.n) (BN_bn2bin sampleKey.e)])
        = .ok true :=
  ⟨by decide,
    sign_verify_roundtrip sha256 (sampleReader sampleKey) zeroStack zeroStack abc samplePEM
      (BN_bn2bin sampleKey.n) (BN_bn2bin sampleKey.e) sampleKey.n sampleKey.e sampleKey.d
      (by decide) (BN_bin2bn_bn2bin _) (BN_bin2bn_bn2bin _) sampleKey_inverse (by decide)⟩

/-- Counterexample to C5: the 80-byte `shortSignature` is accepted for `message 153`
under the public key of `sampleKey`, whose modulus has 81 bytes. -/
theorem verify_length_mismatch_counterexample :
    shortSignature.length = 80
      ∧ BN_num_bytes (BN_bin2bn (BN_bn2bin sampleKey.n)) = 81
      ∧ VerifyRSASHA256 sha256 zeroStack
          [.binary message153, .binary shortSignature, .publicKey (BN_bn2bin sampleKey.n) (BN_bn2bin sampleKey.e)]
        = .ok true := by
  decide

/-- C5 (amended): for every message, public key and signature whose byte length differs
from the byte length `k` of the modulus, `VerifyRSASHA256` does not raise. It returns
true exactly when the signature is shorter than `k` bytes and the `k`-byte big-endian
encoding of `s^e mod n` is the encoded block of the message; it returns false
otherwise, so for every signature longer than `k` bytes. This holds as long as the
array `rsigBuf`, which is not written when the signature is refused, does not already
hold the encoded block. -/
theorem verify_length_mismatch (SHA256 : List Byte → Digest) (stack : Nat → Byte)
    (m s nb eb : List Byte)
    (hlen : s.length ≠ BN_num_bytes (BN_bin2bn nb))
    (hstack : uninitialised stack (BN_num_bytes (BN_bin2bn nb))
      ≠ EMSA_PKCS1_v1_5 SHA256 m (BN_num_bytes (BN_bin2bn nb))) :
    VerifyRSASHA256 SHA256 stack [.binary m, .binary s, .publicKey nb eb]
      = .ok (decide (s.length < BN_num_bytes (BN_bin2bn nb)
          ∧ bigEndian (BN_num_bytes (BN_bin2bn nb))
              (BN_bin2bn s ^ BN_bin2bn eb % BN_bin2bn nb)
            = EMSA_PKCS1_v1_5 SHA256 m (BN_num_bytes (BN_bin2bn nb)))) := by
  rcases Nat.lt_or_gt_of_ne hlen with hshort | hlong
  · have hn0 : BN_bin2bn nb ≠ 0 := by
      intro h0
      rw [h0, BN_num_bytes_zero] at hshort
      omega
    have hval : BN_bin2bn s < BN_bin2bn nb := by
      refine Nat.lt_of_lt_of_le (BN_bin2bn_lt s) ?_
      refine Nat.le_trans (Nat.pow_le_pow_right (by decide) ?_) (BN_num_bytes_lower _ hn0)
      omega
    rw [verify_accepted SHA256 stack m s nb eb (Nat.le_of_lt hshort) hval]
    simp [hshort]
  · rw [verify_refused SHA256 stack m s nb eb hlong, decide_eq_false hstack]
    have hnot : ¬ s.length < BN_num_bytes (BN_bin2bn nb) := by omega
    simp [hnot]

/-- Witness of the amended C5: `abcSignature` with one more byte, 82 bytes under an
81-byte modulus, is rejected for `abc` without an exception. -/
theorem verify_length_mismatch_witness :
    (abcSignature ++ [0x00]).length ≠ BN_num_bytes (BN_bin2bn (BN_bn2bin sampleKey.n))
      ∧ uninitialised zeroStack (BN_num_bytes (BN_bin2bn (BN_bn2bin sampleKey.n)))
          ≠ EMSA_PKCS1_v1_5 sha256 abc (BN_num_bytes (BN_bin2bn (BN_bn2bin sampleKey.n)))
      ∧ VerifyRSASHA256 sha256 zeroStack
          [.binary abc, .binary (abcSignature ++ [0x00]), .publicKey (BN_bn2bin sampleKey.n) (BN_bn2bin sampleKey.e)]
        = .ok false :=
  ⟨by decide, by decide,
    (verify_length_mismatch sha256 zeroStack abc (abcSignature ++ [0x00])
      (BN_bn2bin sampleKey.n) (BN_bn2bin sampleKey.e) (by decide) (by decide)).trans
      (by decide)⟩

/-- Counterexample to C7: `abcSignature` with a zero byte in front has 82 bytes and the
same value, so the 81-byte encoding of `s^e mod n` is the encoded block of `abc`; the
raw public transform refuses the 82 bytes and `VerifyRSASHA256` returns false. -/
theorem verify_true_iff_counterexample :
    (bigEndian (BN_num_bytes (BN_bin2bn (BN_bn2bin sampleKey.n)))
          (BN_bin2bn (0x00 :: abcSignature) ^ BN_bin2bn (BN_bn2bin sampleKey.e)
            % BN_bin2bn (BN_bn2bin sampleKey.n))).length
        = (EMSA_PKCS1_v1_5 sha256 abc (BN_num_bytes (BN_bin2bn (BN_bn2bin sampleKey.n)))).length
      ∧ bigEndian (BN_num_bytes (BN_bin2bn (BN_bn2bin sampleKey.n)))
          (BN_bin2bn (0x00 :: abcSignature) ^ BN_bin2bn (BN_bn2bin sampleKey.e)
            % BN_bin2bn (BN_bn2bin sampleKey.n))
        = EMSA_PKCS1_v1_5 sha256 abc (BN_num_bytes (BN_bin2bn (BN_bn2bin sampleKey.n)))
      ∧ VerifyRSASHA256 sha256 zeroStack
          [.binary abc, .binary (0x00 :: abcSignature), .publicKey (BN_bn2bin sampleKey.n) (BN_bn2bin sampleKey.e)]
        = .ok false := by
  decide

/-- C7 (amended): for every message `m`, public key `(n, e)` with `k` the byte length
of `n`, and signature `s` of at most `k` bytes whose big-endian value is below `n`,
`VerifyRSASHA256` returns true if and only if the `k`-byte big-endian encoding of
`s^e mod n` has the same length as the encoded block of `m` for `k` and is equal to it
byte for byte. -/
theorem verify_true_iff (SHA256 : List Byte → Digest) (stack : Nat → Byte)
    (m s nb eb : List Byte)
    (hlen : s.length ≤ BN_num_bytes (BN_bin2bn nb))
    (hval : BN_bin2bn s < BN_bin2bn nb) :
    VerifyRSASHA256 SHA256 stack [.binary m, .binary s, .publicKey nb eb] = .ok true
      ↔ (bigEndian (BN_num_bytes (BN_bin2bn nb))
            (BN_bin2bn s ^ BN_bin2bn eb % BN_bin2bn nb)).length
          = (EMSA_PKCS1_v1_5 SHA256 m (BN_num_bytes (BN_bin2bn nb))).length
        ∧ bigEndian (BN_num_bytes (BN_bin2bn nb)) (BN_bin2bn s ^ BN_bin2bn eb % BN_bin2bn nb)
          = EMSA_PKCS1_v1_5 SHA256 m (BN_num_bytes (BN_bin2bn nb)) := by
  rw [verify_accepted SHA256 stack m s nb eb hlen hval]
  constructor
  · intro h
    have h1 := of_decide_eq_true (Except.ok.inj h)
    exact ⟨by rw [h1], h1⟩
  · rintro ⟨_, h⟩
    rw [decide_eq_true h]

/-- Witness of the amended C7: `abcSignature` has 81 bytes and a value below the modulus
of `sampleKey`, and it is accepted for `abc`. -/
theorem verify_true_iff_witness :
    abcSignature.length ≤ BN_num_bytes (BN_bin2bn (BN_bn2bin sampleKey.n))
      ∧ BN_bin2bn abcSignature < BN_bin2bn (BN_bn2bin sampleKey.n)
      ∧ VerifyRSASHA256 sha256 zeroStack
          [.binary abc, .binary abcSignature, .publicKey (BN_bn2bin sampleKey.n) (BN_bn2bin sampleKey.e)]
        = .ok true :=
  ⟨by decide, by decide,
    (verify_true_iff sha256 zeroStack abc abcSignature
      (BN_bn2bin sampleKey.n) (BN_bn2bin sampleKey.e) (by decide) (by decide)).2
      ⟨by decide, by decide⟩⟩

/-! ### Claims about key generation -/

theorem BN_hex2bn_10001 : BN_hex2bn "10001".toList = 65537 := by decide

/-- C8: every successful call of `Generate`, whatever its arguments, asks the key
generator for 1024 bits and the exponent 0x10001 = 65537 and serializes the key it
gets; with a key generator that returns the exponent it was handed, the `e` of the
returned public key is `01 00 01`, the big-endian encoding of 65537. -/
theorem generate_exponent (keygen : Nat → Nat → Option RSA) (writer : RSA → Option BIO)
    (args : List Value) (r : KeyPair)
    (hgen : ∀ bits e rsa, keygen bits e = some rsa → rsa.e = e)
    (hok : Generate keygen writer args = .ok r) :
    (∃ rsa, keygen 1024 0x10001 = some rsa
        ∧ r.publicKey = { n := bnToBinary rsa.n, e := bnToBinary rsa.e })
      ∧ r.publicKey.e = some [0x01, 0x00, 0x01]
      ∧ BN_bin2bn [0x01, 0x00, 0x01] = 65537 := by
  simp only [Generate, BN_hex2bn_10001] at hok
  cases hg : keygen 1024 65537 with
  | none => simp [hg] at hok
  | some rsa =>
    simp only [hg] at hok
    have hr := Except.ok.inj hok
    have he : rsa.e = 65537 := hgen 1024 65537 rsa hg
    subst hr
    refine ⟨⟨rsa, rfl, rfl⟩, ?_, by decide⟩
    simp only [he]
    decide

/-- Witness of C8 with the stand-in generator and writer, called with no argument. -/
theorem generate_exponent_witness :
    Generate sampleGenerator sampleWriter []
        = .ok { publicKey := { n := bnToBinary sampleKey.n, e := bnToBinary 65537 },
                privateKey := some samplePEM }
      ∧ bnToBinary 65537 = some [0x01, 0x00, 0x01] :=
  ⟨by decide,
    (generate_exponent sampleGenerator sampleWriter []
      { publicKey := { n := bnToBinary sampleKey.n, e := bnToBinary 65537 },
        privateKey := some samplePEM }
      (by intro bits e rsa h; cases h; rfl) (by decide)).2.1⟩

end Provenance
